import Mathlib

/-!
Verification of the datagoose ETL core (IPEDS schema-harmonization and
idempotent-load engine) against its natural-language specification.

Each section shallowly embeds one component of the Python source:

* `src/projects/ipeds/etl/load_cip_codes.py` — CIP code normalizer
  (`clean_cip_code`, `get_cip_level`, `normalize_cip_code`);
* `src/projects/ipeds/etl/load_historic.py` — column resolver
  (`get_total_enrollment_column`), numeric coercion
  (`pd.to_numeric(errors="coerce").fillna(0)` plus the positive-only filter),
  archive member selection (`read_zip_csv`);
* `src/projects/ipeds/etl/load_year.py` — archive member selection
  (`extract_csv_from_zip`), per-file load loop (`load_file`, `load_year`);
* `src/projects/ipeds/etl/transform_year.py` — audit bracketing
  (`TableLogger`), the per-year orchestrator (`transform_year`),
  entity gating (`WHERE unitid IN (SELECT unitid FROM institution)`),
  and the `INSERT ... ON CONFLICT ... DO UPDATE` upsert discipline.

Python strings are modelled as `List Char`, database tables as association
lists keyed by their natural key, and fallible operations as `Except`/`Option`.
-/

/-! ## Code normalizer (`load_cip_codes.py`)

The Python functions operate on `str`; we model them on `List Char`.
-/

/-- `parts[0].zfill(2)`: left-pad with the character `'0'` to length 2. -/
def zfill2 (l : List Char) : List Char :=
  List.replicate (2 - l.length) '0' ++ l

/-- `parts[1].ljust(4, '0') if len(parts[1]) < 4 else parts[1]`:
right-pad with `'0'` to length 4 (a no-op at length ≥ 4, exactly as the
conditional in the source). -/
def ljust4 (l : List Char) : List Char :=
  l ++ List.replicate (4 - l.length) '0'

/-- `code.split('.')[0]`: the characters before the first dot. -/
def famPart (l : List Char) : List Char :=
  l.takeWhile (fun c => c != '.')

/-- `code.split('.')[1]`: the characters strictly between the first dot and
the following dot (or the end). -/
def subPart (l : List Char) : List Char :=
  ((l.dropWhile (fun c => c != '.')).tail).takeWhile (fun c => c != '.')

/-- Python `str.strip()`: drop leading and trailing whitespace. -/
def trimChars (l : List Char) : List Char :=
  (((l.dropWhile Char.isWhitespace).reverse).dropWhile Char.isWhitespace).reverse

/-- `clean_cip_code` (load_cip_codes.py:19-23):
`re.sub(r'^="?|"$', '', raw_code.strip())` — strip whitespace, remove a
leading `=` optionally followed by `"`, and remove one trailing `"`. -/
def clean_cip_code (l : List Char) : List Char :=
  let t := trimChars l
  let t1 := match t with
    | '=' :: '"' :: r => r
    | '=' :: r => r
    | r => r
  if t1.getLast? = some '"' then t1.dropLast else t1

/-- `get_cip_level` (load_cip_codes.py:25-37): 2 (family) when no dot is
present, 4 (series) when the part after the dot has exactly two characters,
6 (detailed) otherwise. -/
def get_cip_level (l : List Char) : Nat :=
  if '.' ∈ l then (if (subPart l).length = 2 then 4 else 6) else 2

/-- `normalize_cip_code` (load_cip_codes.py:39-48): without a dot, just
`code.zfill(2)`; with a dot, `f"{parts[0].zfill(2)}.{parts[1].ljust(4,'0')}"`
(the `ljust` applied only below length 4, which `ljust4` reproduces). -/
def normalize_cip_code (l : List Char) : List Char :=
  if '.' ∈ l then zfill2 (famPart l) ++ '.' :: ljust4 (subPart l)
  else zfill2 l

/-- The spec's `NormalizedCode` record (§4.3): normalized form, 2-digit
family, hierarchy level. -/
structure NormalizedCipCode where
  normalized : List Char
  family : List Char
  level : Nat
  deriving DecidableEq, Repr

/-- The record produced for one code: `normalize_cip_code` for the
normalized form, the zero-filled integer part for the family (what `main`
stores via `family_raw.zfill(2)`, equal to the code's own integer part for
well-formed rows), `get_cip_level` for the level. -/
def normalizeCip (c : List Char) : NormalizedCipCode :=
  { normalized := normalize_cip_code c
    family := zfill2 (famPart c)
    level := get_cip_level c }

theorem zfill2_length_ge (l : List Char) : 2 ≤ (zfill2 l).length := by
  simp [zfill2]
  omega

theorem zfill2_idem (l : List Char) : zfill2 (zfill2 l) = zfill2 l := by
  have h := zfill2_length_ge l
  simp [zfill2, Nat.sub_eq_zero_of_le]
  omega

theorem ljust4_length_ge (l : List Char) : 4 ≤ (ljust4 l).length := by
  simp [ljust4]
  omega

theorem ljust4_idem (l : List Char) : ljust4 (ljust4 l) = ljust4 l := by
  have h := ljust4_length_ge l
  simp [ljust4, Nat.sub_eq_zero_of_le]
  omega

theorem zfill2_not_dot (l : List Char) (h : '.' ∉ l) : '.' ∉ zfill2 l := by
  simp only [zfill2, List.mem_append, List.mem_replicate]
  rintro (⟨-, hc⟩ | hc)
  · exact absurd hc.symm (by decide)
  · exact h hc

theorem ljust4_not_dot (l : List Char) (h : '.' ∉ l) : '.' ∉ ljust4 l := by
  simp only [ljust4, List.mem_append, List.mem_replicate]
  rintro (hc | ⟨-, hc⟩)
  · exact h hc
  · exact absurd hc.symm (by decide)

theorem famPart_not_dot (l : List Char) : '.' ∉ famPart l := by
  intro h
  have := List.mem_takeWhile_imp h
  simp at this

theorem subPart_not_dot (l : List Char) : '.' ∉ subPart l := by
  intro h
  have := List.mem_takeWhile_imp h
  simp at this

theorem takeWhile_append_all (p : Char → Bool) (l1 l2 : List Char)
    (h : ∀ a ∈ l1, p a = true) :
    (l1 ++ l2).takeWhile p = l1 ++ l2.takeWhile p := by
  induction l1 with
  | nil => simp
  | cons a l1 ih =>
    have ha := h a (by simp)
    simp only [List.cons_append, List.takeWhile_cons, ha]
    simp [ih (fun b hb => h b (by simp [hb]))]

theorem dropWhile_append_all (p : Char → Bool) (l1 l2 : List Char)
    (h : ∀ a ∈ l1, p a = true) :
    (l1 ++ l2).dropWhile p = l2.dropWhile p := by
  induction l1 with
  | nil => simp
  | cons a l1 ih =>
    have ha := h a (by simp)
    simp only [List.cons_append, List.dropWhile_cons, ha]
    simp [ih (fun b hb => h b (by simp [hb]))]

theorem takeWhile_of_all (p : Char → Bool) (l : List Char)
    (h : ∀ a ∈ l, p a = true) : l.takeWhile p = l := by
  have := takeWhile_append_all p l [] h
  simpa using this

theorem all_bne_dot (l : List Char) (h : '.' ∉ l) :
    ∀ a ∈ l, (a != '.') = true := by
  intro a ha
  have : a ≠ '.' := fun heq => h (heq ▸ ha)
  simpa using this

/-- The part before the dot of `f ++ "." ++ s` is `f`, when `f` is dot-free. -/
theorem famPart_concat (f s : List Char) (hf : '.' ∉ f) :
    famPart (f ++ '.' :: s) = f := by
  unfold famPart
  rw [takeWhile_append_all _ _ _ (all_bne_dot f hf)]
  simp [List.takeWhile_cons]

/-- The part between the first and second dot of `f ++ "." ++ s` is `s`,
when both pieces are dot-free. -/
theorem subPart_concat (f s : List Char) (hf : '.' ∉ f) (hs : '.' ∉ s) :
    subPart (f ++ '.' :: s) = s := by
  unfold subPart
  rw [dropWhile_append_all _ _ _ (all_bne_dot f hf)]
  simp only [List.dropWhile_cons]
  norm_num
  intro x hx
  exact fun heq => hs (heq ▸ hx)

/-- Characters of the normalized form of a dotted code, before the dot. -/
theorem famPart_normalize_dot (l : List Char) (h : '.' ∈ l) :
    famPart (normalize_cip_code l) = zfill2 (famPart l) := by
  simp only [normalize_cip_code, h, if_true]
  exact famPart_concat _ _ (zfill2_not_dot _ (famPart_not_dot l))

theorem subPart_normalize_dot (l : List Char) (h : '.' ∈ l) :
    subPart (normalize_cip_code l) = ljust4 (subPart l) := by
  simp only [normalize_cip_code, h, if_true]
  exact subPart_concat _ _ (zfill2_not_dot _ (famPart_not_dot l))
    (ljust4_not_dot _ (subPart_not_dot l))

theorem normalize_mem_dot (l : List Char) (h : '.' ∈ l) :
    '.' ∈ normalize_cip_code l := by
  simp [normalize_cip_code, h]

theorem normalize_not_dot (l : List Char) (h : '.' ∉ l) :
    '.' ∉ normalize_cip_code l := by
  simp only [normalize_cip_code, h, if_false]
  exact zfill2_not_dot l h

theorem normalize_cip_code_idem (l : List Char) :
    normalize_cip_code (normalize_cip_code l) = normalize_cip_code l := by
  by_cases h : '.' ∈ l
  · have hm := normalize_mem_dot l h
    rw [normalize_cip_code, if_pos hm, famPart_normalize_dot l h,
      subPart_normalize_dot l h, zfill2_idem, ljust4_idem]
    rw [normalize_cip_code, if_pos h]
  · have hm := normalize_not_dot l h
    rw [normalize_cip_code, if_neg hm]
    simp only [normalize_cip_code, h, if_false]
    exact zfill2_idem l

theorem famPart_of_not_dot (l : List Char) (h : '.' ∉ l) : famPart l = l := by
  refine takeWhile_of_all _ _ ?_
  intro a ha
  have : a ≠ '.' := fun heq => h (heq ▸ ha)
  simpa using this

/-- The family component survives re-normalization. -/
theorem family_normalize (l : List Char) :
    zfill2 (famPart (normalize_cip_code l)) = zfill2 (famPart l) := by
  by_cases h : '.' ∈ l
  · rw [famPart_normalize_dot l h, zfill2_idem]
  · rw [normalize_cip_code, if_neg h,
      famPart_of_not_dot _ (zfill2_not_dot l h), zfill2_idem,
      famPart_of_not_dot l h]

/-- C8 counterexample input: the series-level code `01.01`. -/
def seriesCode : List Char := ['0', '1', '.', '0', '1']

/-- **C8 (counterexample).** The claim `normalize(normalize(c).normalized)
== normalize(c)` fails over the full result record at the valid raw series
code `"01.01"`: its normalized form is `"01.0100"`, and re-normalizing that
yields level 6 (detailed) where `normalize("01.01")` has level 4 (series). -/
theorem cip_record_idem_counterexample :
    normalizeCip ((normalizeCip seriesCode).normalized) ≠ normalizeCip seriesCode ∧
    (normalizeCip seriesCode).level = 4 ∧
    (normalizeCip ((normalizeCip seriesCode).normalized)).level = 6 := by
  refine ⟨?_, by decide, by decide⟩
  decide

/-- **C8 (amended).** Re-normalizing the normalized form of any raw code
reproduces the same normalized string and the same family; the level is also
reproduced — so the full record round-trips — exactly when the code has no
fractional separator or its fractional part does not have length 2 (a
series-level code's level changes from 4 to 6, as the counterexample shows). -/
theorem cip_normalize_idem_amended (c : List Char) :
    normalize_cip_code (normalize_cip_code c) = normalize_cip_code c ∧
    (normalizeCip ((normalizeCip c).normalized)).family = (normalizeCip c).family ∧
    ('.' ∉ c ∨ (subPart c).length ≠ 2 →
      normalizeCip ((normalizeCip c).normalized) = normalizeCip c) := by
  refine ⟨normalize_cip_code_idem c, family_normalize c, ?_⟩
  intro h
  have hnorm := normalize_cip_code_idem c
  have hfam := family_normalize c
  by_cases hd : '.' ∈ c
  · have hlen : (subPart c).length ≠ 2 := by
      rcases h with h | h
      · exact absurd hd h
      · exact h
    have hm := normalize_mem_dot c hd
    simp only [normalizeCip, hnorm, hfam, NormalizedCipCode.mk.injEq,
      true_and]
    rw [get_cip_level, if_pos hm, subPart_normalize_dot c hd,
      get_cip_level, if_pos hd]
    have h4 : (ljust4 (subPart c)).length ≠ 2 := by
      have := ljust4_length_ge (subPart c)
      omega
    rw [if_neg h4, if_neg hlen]
  · have hm := normalize_not_dot c hd
    simp only [normalizeCip, hnorm, hfam, NormalizedCipCode.mk.injEq,
      true_and]
    rw [get_cip_level, if_neg hm, get_cip_level, if_neg hd]

/-- Witness for `cip_normalize_idem_amended` at the detailed code
`"01.0101"`, which satisfies the level-preservation hypothesis. -/
theorem cip_normalize_idem_amended_witness :
    normalizeCip ((normalizeCip ['0','1','.','0','1','0','1']).normalized) =
      normalizeCip ['0','1','.','0','1','0','1'] :=
  (cip_normalize_idem_amended ['0','1','.','0','1','0','1']).2.2
    (Or.inr (by decide))

/-- **C9 (confirmed).** The hierarchy level is determined solely by digit
structure: no fractional separator gives level 2 (coarse/family), a
2-character fractional part gives level 4 (mid/series), a longer fractional
part gives level 6 (fine/detailed); and the spreadsheet-quoted raw code
`="01.0101"` cleans to `01.0101`, which normalizes to the record
(normalized `01.0101`, family `01`, level 6). -/
theorem cip_level_structure (c : List Char) :
    ('.' ∉ c → get_cip_level c = 2) ∧
    ('.' ∈ c → (subPart c).length = 2 → get_cip_level c = 4) ∧
    ('.' ∈ c → 2 < (subPart c).length → get_cip_level c = 6) ∧
    clean_cip_code ['=', '"', '0','1','.','0','1','0','1', '"'] =
      ['0','1','.','0','1','0','1'] ∧
    normalizeCip ['0','1','.','0','1','0','1'] =
      { normalized := ['0','1','.','0','1','0','1'],
        family := ['0','1'], level := 6 } := by
  refine ⟨?_, ?_, ?_, by decide, by decide⟩
  · intro h; rw [get_cip_level, if_neg h]
  · intro h h2; rw [get_cip_level, if_pos h, if_pos h2]
  · intro h h2
    rw [get_cip_level, if_pos h, if_neg (by omega)]

/-- Witness for `cip_level_structure`: the three structural cases at
concrete codes `"01"`, `"01.01"`, `"01.0101"`. -/
theorem cip_level_structure_witness :
    get_cip_level ['0','1'] = 2 ∧
    get_cip_level ['0','1','.','0','1'] = 4 ∧
    get_cip_level ['0','1','.','0','1','0','1'] = 6 :=
  ⟨(cip_level_structure ['0','1']).1 (by decide),
   (cip_level_structure ['0','1','.','0','1']).2.1 (by decide) (by decide),
   (cip_level_structure ['0','1','.','0','1','0','1']).2.2.1 (by decide)
     (by decide)⟩

/-! ## Column resolver (`load_historic.py`, `get_total_enrollment_column`)

The resolver receives the table's (lowercased) column names and returns
either a direct column name, the derived-by-sum marker
`"efrace15+efrace16"`, or `none`. Python's `col in df.columns` is set
membership, modelled as `∈` on the header list.
-/

/-- The alias-priority list from load_historic.py:172-177, oldest era
first. -/
def enrollment_candidates : List String :=
  ["efrace15", "efrace16", "eftotlt", "EFTOTLT"]

/-- `get_total_enrollment_column` (load_historic.py:169-187): if both
`efrace15` and `efrace16` are present, signal the derived-by-sum
resolution; otherwise return the first candidate present; otherwise
`None`. -/
def get_total_enrollment_column (cols : List String) : Option String :=
  if "efrace15" ∈ cols ∧ "efrace16" ∈ cols then
    some "efrace15+efrace16"
  else
    enrollment_candidates.find? (fun c => decide (c ∈ cols))

/-- **C7 (counterexample).** The claim says a header containing `eftotlt`
but not both of `efrace15`/`efrace16` resolves to the direct match
`eftotlt`; but for the header `["efrace15", "eftotlt"]` (one subgroup
column plus the combined total) the resolver returns `efrace15`, because
the alias list is scanned oldest era first. -/
theorem enrollment_resolver_counterexample :
    get_total_enrollment_column ["efrace15", "eftotlt"] = some "efrace15" ∧
    get_total_enrollment_column ["efrace15", "eftotlt"] ≠ some "eftotlt" := by
  constructor
  · decide
  · decide

/-- **C7 (amended).** Resolution depends only on which names are present
in the header, not on its ordering (any permutation resolves alike); a
header containing `eftotlt` and neither `efrace15` nor `efrace16`
resolves to `eftotlt`; a header containing both `efrace15` and `efrace16`
resolves to the derived-by-sum marker, distinct from every direct column
name; and when exactly one of the pair is present — `efrace15` alone or
`efrace16` alone — it wins over `eftotlt` (oldest era first), which is
where the claim's wording fails. -/
theorem enrollment_resolver_amended (cols cols' : List String) :
    (cols.Perm cols' →
      get_total_enrollment_column cols = get_total_enrollment_column cols') ∧
    ("eftotlt" ∈ cols → "efrace15" ∉ cols → "efrace16" ∉ cols →
      get_total_enrollment_column cols = some "eftotlt") ∧
    ("efrace15" ∈ cols → "efrace16" ∈ cols →
      get_total_enrollment_column cols = some "efrace15+efrace16") ∧
    ("efrace15" ∈ cols → "efrace16" ∉ cols → "eftotlt" ∈ cols →
      get_total_enrollment_column cols = some "efrace15") ∧
    ("efrace16" ∈ cols → "efrace15" ∉ cols → "eftotlt" ∈ cols →
      get_total_enrollment_column cols = some "efrace16") := by
  refine ⟨?_, ?_, ?_, ?_, ?_⟩
  · intro h
    have e : ∀ c : String, (c ∈ cols) = (c ∈ cols') :=
      fun c => propext h.mem_iff
    simp only [get_total_enrollment_column, e]
  · intro h1 h2 h3
    simp [get_total_enrollment_column, enrollment_candidates, h1, h2, h3,
      List.find?]
  · intro h1 h2
    simp [get_total_enrollment_column, h1, h2]
  · intro h1 h2 h3
    simp [get_total_enrollment_column, enrollment_candidates, h1, h2, h3,
      List.find?]
  · intro h1 h2 h3
    simp [get_total_enrollment_column, enrollment_candidates, h1, h2, h3,
      List.find?]

/-- Witness for `enrollment_resolver_amended` at concrete headers. -/
theorem enrollment_resolver_amended_witness :
    get_total_enrollment_column ["unitid", "eftotlt"] =
      get_total_enrollment_column ["eftotlt", "unitid"] ∧
    get_total_enrollment_column ["unitid", "eftotlt"] = some "eftotlt" ∧
    get_total_enrollment_column ["efrace15", "efrace16", "eftotlt"] =
      some "efrace15+efrace16" ∧
    get_total_enrollment_column ["efrace15", "eftotlt"] = some "efrace15" ∧
    get_total_enrollment_column ["efrace16", "eftotlt"] = some "efrace16" :=
  ⟨(enrollment_resolver_amended ["unitid", "eftotlt"]
      ["eftotlt", "unitid"]).1 (List.Perm.swap _ _ _),
   (enrollment_resolver_amended ["unitid", "eftotlt"] []).2.1
     (by decide) (by decide) (by decide),
   (enrollment_resolver_amended ["efrace15", "efrace16", "eftotlt"] []).2.2.1
     (by decide) (by decide),
   (enrollment_resolver_amended ["efrace15", "eftotlt"] []).2.2.2.1
     (by decide) (by decide) (by decide),
   (enrollment_resolver_amended ["efrace16", "eftotlt"] []).2.2.2.2
     (by decide) (by decide) (by decide)⟩

/-- **C10 (confirmed).** When exactly one of the paired subgroup columns
`efrace15` (total men) / `efrace16` (total women) is present and no
combined total column is present, the resolver returns that single
subgroup column — not the derived-by-sum marker and not `none`; and it
returns `none` exactly when none of the candidate columns is present (a
plain `none`, no exception: the resolver is a total function). -/
theorem enrollment_resolver_single_subgroup (cols : List String) :
    ("efrace15" ∈ cols → "efrace16" ∉ cols → "eftotlt" ∉ cols →
      "EFTOTLT" ∉ cols →
      get_total_enrollment_column cols = some "efrace15") ∧
    ("efrace16" ∈ cols → "efrace15" ∉ cols → "eftotlt" ∉ cols →
      "EFTOTLT" ∉ cols →
      get_total_enrollment_column cols = some "efrace16") ∧
    (get_total_enrollment_column cols = none ↔
      ("efrace15" ∉ cols ∧ "efrace16" ∉ cols ∧ "eftotlt" ∉ cols ∧
       "EFTOTLT" ∉ cols)) := by
  refine ⟨?_, ?_, ?_⟩
  · intro h1 h2 h3 h4
    simp [get_total_enrollment_column, enrollment_candidates, h1, h2,
      List.find?]
  · intro h1 h2 h3 h4
    simp [get_total_enrollment_column, enrollment_candidates, h1, h2,
      List.find?]
  · constructor
    · intro h
      by_cases h1 : "efrace15" ∈ cols <;>
        by_cases h2 : "efrace16" ∈ cols <;>
          by_cases h3 : "eftotlt" ∈ cols <;>
            by_cases h4 : "EFTOTLT" ∈ cols <;>
              simp [get_total_enrollment_column, enrollment_candidates,
                h1, h2, h3, h4, List.find?] at h ⊢
    · rintro ⟨h1, h2, h3, h4⟩
      simp [get_total_enrollment_column, enrollment_candidates, h1, h2, h3,
        h4, List.find?]

/-- Witness for `enrollment_resolver_single_subgroup` at concrete
headers. -/
theorem enrollment_resolver_single_subgroup_witness :
    get_total_enrollment_column ["unitid", "efrace15"] = some "efrace15" ∧
    get_total_enrollment_column ["unitid", "efrace16"] = some "efrace16" ∧
    get_total_enrollment_column ["unitid", "line"] = none :=
  ⟨(enrollment_resolver_single_subgroup ["unitid", "efrace15"]).1
     (by decide) (by decide) (by decide) (by decide),
   (enrollment_resolver_single_subgroup ["unitid", "efrace16"]).2.1
     (by decide) (by decide) (by decide) (by decide),
   (enrollment_resolver_single_subgroup ["unitid", "line"]).2.2.mpr
     ⟨by decide, by decide, by decide, by decide⟩⟩

/-! ## Numeric coercion (`load_historic.py`, `load_enrollment_year`)

`pd.to_numeric(col, errors="coerce")` maps an unparseable or missing cell
to NaN, `.fillna(0)` then replaces NaN by 0, and the final
`agg[agg["total"] > 0]` keeps only positive totals. A cell is
`Option String` (`none` = missing/NaN in the source frame); parsing is
`Option Int` (`none` = NaN after coercion). The observable derived value
of a row is `none` (absent) when the row is filtered out.
-/

/-- Digit run to its decimal value. -/
def digitsVal (l : List Char) : Nat :=
  l.foldl (fun n c => n * 10 + (c.toNat - 48)) 0

/-- `pd.to_numeric(_, errors="coerce")` on one cell, restricted to the
integer literals that occur in these count columns: an optional sign
followed by digits parses; anything else coerces to NaN (`none`). -/
def parseNum (s : String) : Option Int :=
  match trimChars s.data with
  | [] => none
  | '-' :: rest =>
    if rest ≠ [] ∧ rest.all Char.isDigit then
      some (-(digitsVal rest : Int))
    else none
  | l =>
    if l.all Char.isDigit then some (digitsVal l : Int) else none

/-- Coercion of a cell that may be missing (NaN stays NaN). -/
def parseCell (c : Option String) : Option Int :=
  c.bind parseNum

/-- `pd.to_numeric(df[col], errors="coerce").fillna(0)` on one cell
(load_historic.py:224, 228). -/
def to_numeric_fillna0 (c : Option String) : Int :=
  (parseCell c).getD 0

/-- `agg = agg[agg["total"] > 0]` (load_historic.py:235): a non-positive
total produces no output row, i.e. an absent value. -/
def positive_only (v : Int) : Option Int :=
  if 0 < v then some v else none

/-- Derived total in the 2000s-format branch (load_historic.py:226-228):
the single `eftotlt` cell, coerced, zero-filled, then positive-filtered. -/
def direct_total_value (c : Option String) : Option Int :=
  positive_only (to_numeric_fillna0 c)

/-- Derived total in the 1980s-format branch (load_historic.py:221-225):
`efrace15 + efrace16` with each addend coerced and zero-filled, then
positive-filtered. The same shape models the `crace15 + crace16` sum in
`load_completions_year` (load_historic.py:364-376). -/
def summed_total_value (a b : Option String) : Option Int :=
  positive_only (to_numeric_fillna0 a + to_numeric_fillna0 b)

/-- **C4 (confirmed).** Numeric coercion never turns an unparseable value
into a stored zero: an unparseable or missing single cell yields an absent
derived value (no error — the functions are total — and never `some 0`,
which also holds of the summed branch); in the derived-by-sum branch, when
both addends fail to parse the derived value is absent, and a missing
addend is treated as zero in the sum when the other addend parses (to a
positive count, which is what the positive-only filter then keeps). -/
theorem numeric_coercion_policy (a b c : Option String) (v : Int) :
    (parseCell c = none → direct_total_value c = none) ∧
    (direct_total_value c ≠ some 0 ∧ summed_total_value a b ≠ some 0) ∧
    (parseCell a = none → parseCell b = none →
      summed_total_value a b = none) ∧
    (parseCell a = some v → parseCell b = none → 0 < v →
      summed_total_value a b = some v) := by
  refine ⟨?_, ⟨?_, ?_⟩, ?_, ?_⟩
  · intro h
    simp [direct_total_value, to_numeric_fillna0, positive_only, h]
  · intro h
    simp only [direct_total_value, positive_only] at h
    split at h
    · rename_i hv
      have := Option.some.inj h
      omega
    · exact Option.noConfusion h
  · intro h
    simp only [summed_total_value, positive_only] at h
    split at h
    · rename_i hv
      have := Option.some.inj h
      omega
    · exact Option.noConfusion h
  · intro ha hb
    simp [summed_total_value, to_numeric_fillna0, positive_only, ha, hb]
  · intro ha hb hv
    simp [summed_total_value, to_numeric_fillna0, positive_only, ha, hb, hv]

/-- Witness for `numeric_coercion_policy`: cell values `"ABC"` and
`"xyz"` (letter codes) and the count `"5"`. -/
theorem numeric_coercion_policy_witness :
    direct_total_value (some "ABC") = none ∧
    summed_total_value (some "ABC") (some "xyz") = none ∧
    summed_total_value (some "5") (some "ABC") = some 5 :=
  ⟨(numeric_coercion_policy (some "ABC") (some "xyz") (some "ABC") 0).1
     (by decide),
   (numeric_coercion_policy (some "ABC") (some "xyz") (some "ABC") 0).2.2.1
     (by decide) (by decide),
   (numeric_coercion_policy (some "5") (some "ABC") (some "ABC") 5).2.2.2
     (by decide) (by decide) (by decide)⟩

/-! ## Archive reader member selection

Both readers pick the tabular payload with the same comprehension:
`[n for n in z.namelist() if n.endswith('.csv')][0]`
(load_historic.py:92 `read_zip_csv`, load_year.py:49
`extract_csv_from_zip`). Indexing `[0]` raises `IndexError` on an empty
list; with several matches the first in listing order is used silently.
No `ArchiveFormatError` type exists anywhere in the source.
-/

/-- `n.endswith(".csv")`: the last four characters are `.csv`. -/
def ends_with_csv (n : String) : Bool :=
  decide (n.data.reverse.take 4 = ['v', 's', 'c', '.'])

/-- The `.csv` members of the archive listing. -/
def csv_members (names : List String) : List String :=
  names.filter ends_with_csv

/-- The payload-selection step: `[n for n in namelist if n.endswith('.csv')][0]`,
with the `IndexError` of `[0]` on an empty list modelled as `Except.error`. -/
def pick_csv_member (names : List String) : Except String String :=
  match (csv_members names).head? with
  | some n => Except.ok n
  | none => Except.error "IndexError: list index out of range"

/-- **C6 (counterexample).** The claim says reading fails whenever the
archive contains more than one tabular payload; but on the listing
`["a.csv", "b.csv"]` (two payloads) selection succeeds, silently returning
the first member. -/
theorem archive_selection_counterexample :
    (csv_members ["a.csv", "b.csv"]).length = 2 ∧
    pick_csv_member ["a.csv", "b.csv"] = Except.ok "a.csv" := by
  constructor
  · decide
  · rfl

/-- **C6 (amended).** Payload selection fails — with a generic index
error, there being no `ArchiveFormatError` in the source — exactly when
the archive contains zero `.csv` members; when one or more are present it
succeeds with the first `.csv` member in listing order, regardless of how
many there are. -/
theorem archive_selection_amended (names : List String) :
    (csv_members names = [] →
      pick_csv_member names =
        Except.error "IndexError: list index out of range") ∧
    (∀ n rest, csv_members names = n :: rest →
      pick_csv_member names = Except.ok n) := by
  constructor
  · intro h
    simp [pick_csv_member, h]
  · intro n rest h
    simp [pick_csv_member, h]

/-- Witness for `archive_selection_amended`: an archive with no tabular
member, and one whose listing holds a data `.csv` beside two other
members. -/
theorem archive_selection_amended_witness :
    pick_csv_member ["readme.txt"] =
      Except.error "IndexError: list index out of range" ∧
    pick_csv_member ["readme.txt", "ef1980_a.csv", "extra.csv"] =
      Except.ok "ef1980_a.csv" :=
  ⟨(archive_selection_amended ["readme.txt"]).1 (by decide),
   (archive_selection_amended ["readme.txt", "ef1980_a.csv", "extra.csv"]).2
     "ef1980_a.csv" ["extra.csv"] (by decide)⟩

/-! ## Upsert discipline (`INSERT ... ON CONFLICT ... DO UPDATE`)

Every fact load ends in an upsert on the table's natural key:
`ON CONFLICT (unitid) DO UPDATE ...` in `load_institutions`
(transform_year.py:124-160), `ON CONFLICT (unitid, year, cip_2digit)
DO UPDATE SET total_completions = EXCLUDED.total_completions` in
`load_completions_year` (load_historic.py:388-393), and likewise in every
other transform. A table is an association list of (natural key, non-key
fields) pairs whose key column is duplicate-free (the PRIMARY KEY
invariant); one upsert replaces the conflicting row in place or appends a
new row, and a batch load folds the upsert over the transform's output
rows in order.
-/

section Upsert

variable {K V : Type} [DecidableEq K]

/-- One `INSERT ... ON CONFLICT DO UPDATE`: update the (unique) row with
the same natural key in place, or append the new row. -/
def upsertRow : List (K × V) → K × V → List (K × V)
  | [], r => [r]
  | e :: t, r => if e.1 = r.1 then r :: t else e :: upsertRow t r

/-- A whole batch load: the transform's output rows upserted in order. -/
def upsertAll (t : List (K × V)) (rows : List (K × V)) : List (K × V) :=
  rows.foldl upsertRow t

/-- The key column of the table. -/
def tableKeys (t : List (K × V)) : List K :=
  t.map Prod.fst

/-- The row stored under natural key `k`, if any. -/
def lookupKey (t : List (K × V)) (k : K) : Option (K × V) :=
  t.find? (fun e => decide (e.1 = k))

/-- The rightmost row of a batch carrying key `k` wins (SQL: later
upserts of the batch overwrite earlier ones at the same key). -/
def lastUpd (k : K) (acc : Option (K × V)) (e : K × V) : Option (K × V) :=
  if e.1 = k then some e else acc

theorem lookup_cons_self (e : K × V) (t : List (K × V)) (k : K)
    (h : e.1 = k) : lookupKey (e :: t) k = some e :=
  List.find?_cons_of_pos _ (by simp [h])

theorem lookup_cons_ne (e : K × V) (t : List (K × V)) (k : K)
    (h : ¬ e.1 = k) : lookupKey (e :: t) k = lookupKey t k :=
  List.find?_cons_of_neg _ (by simp [h])

theorem keys_upsertRow_mem (t : List (K × V)) (r : K × V)
    (hm : r.1 ∈ tableKeys t) : tableKeys (upsertRow t r) = tableKeys t := by
  induction t with
  | nil => simp [tableKeys] at hm
  | cons e t ih =>
    by_cases he : e.1 = r.1
    · simp [upsertRow, he, tableKeys]
    · have hm' : r.1 ∈ tableKeys t := by
        rcases (by simpa [tableKeys] using hm : r.1 = e.1 ∨ r.1 ∈ tableKeys t)
          with h | h
        · exact absurd h.symm he
        · exact h
      simp only [upsertRow, if_neg he, tableKeys, List.map_cons]
      rw [show List.map Prod.fst (upsertRow t r) = tableKeys (upsertRow t r)
        from rfl, ih hm']
      rfl

theorem keys_upsertRow_not_mem (t : List (K × V)) (r : K × V)
    (hm : r.1 ∉ tableKeys t) :
    tableKeys (upsertRow t r) = tableKeys t ++ [r.1] := by
  induction t with
  | nil => simp [upsertRow, tableKeys]
  | cons e t ih =>
    have he : ¬ e.1 = r.1 := by
      intro h
      exact hm (by simp [tableKeys, h.symm])
    have hm' : r.1 ∉ tableKeys t := fun h => hm (by simp [tableKeys] at h ⊢; right; exact h)
    simp only [upsertRow, if_neg he, tableKeys, List.map_cons]
    rw [show List.map Prod.fst (upsertRow t r) = tableKeys (upsertRow t r)
      from rfl, ih hm']
    rfl

theorem lookup_upsertRow (t : List (K × V)) (r : K × V) (k : K) :
    lookupKey (upsertRow t r) k = lastUpd k (lookupKey t k) r := by
  induction t with
  | nil =>
    by_cases h : r.1 = k
    · rw [show upsertRow ([] : List (K × V)) r = [r] from rfl,
        lookup_cons_self _ _ _ h]
      simp [lastUpd, h]
    · rw [show upsertRow ([] : List (K × V)) r = [r] from rfl,
        lookup_cons_ne _ _ _ h]
      simp [lastUpd, h]
  | cons e t ih =>
    by_cases he : e.1 = r.1
    · have hup : upsertRow (e :: t) r = r :: t := by simp [upsertRow, he]
      rw [hup]
      by_cases hk : r.1 = k
      · have hek : e.1 = k := he.trans hk
        rw [lookup_cons_self _ _ _ hk, lookup_cons_self _ _ _ hek]
        simp [lastUpd, hk]
      · have hek : ¬ e.1 = k := fun h => hk (he.symm.trans h)
        rw [lookup_cons_ne _ _ _ hk, lookup_cons_ne _ _ _ hek]
        simp [lastUpd, hk]
    · have hup : upsertRow (e :: t) r = e :: upsertRow t r := by
        simp [upsertRow, he]
      rw [hup]
      by_cases hek : e.1 = k
      · have hrk : ¬ r.1 = k := fun h => he (hek.trans h.symm)
        rw [lookup_cons_self _ _ _ hek, lookup_cons_self _ _ _ hek]
        simp [lastUpd, hrk]
      · rw [lookup_cons_ne _ _ _ hek, lookup_cons_ne _ _ _ hek, ih]

theorem nodup_keys_upsertRow (t : List (K × V)) (r : K × V)
    (h : (tableKeys t).Nodup) : (tableKeys (upsertRow t r)).Nodup := by
  by_cases hm : r.1 ∈ tableKeys t
  · rw [keys_upsertRow_mem t r hm]
    exact h
  · rw [keys_upsertRow_not_mem t r hm, List.nodup_append]
    refine ⟨h, List.nodup_singleton _, fun a ha hb => ?_⟩
    rw [List.mem_singleton.mp hb] at ha
    exact hm ha

theorem mem_keys_upsertRow (t : List (K × V)) (r : K × V) (k : K)
    (h : k ∈ tableKeys t) : k ∈ tableKeys (upsertRow t r) := by
  by_cases hm : r.1 ∈ tableKeys t
  · rw [keys_upsertRow_mem t r hm]; exact h
  · rw [keys_upsertRow_not_mem t r hm]; exact List.mem_append_left _ h

theorem self_mem_keys_upsertRow (t : List (K × V)) (r : K × V) :
    r.1 ∈ tableKeys (upsertRow t r) := by
  by_cases hm : r.1 ∈ tableKeys t
  · rw [keys_upsertRow_mem t r hm]; exact hm
  · rw [keys_upsertRow_not_mem t r hm]
    exact List.mem_append_right _ (by simp)

theorem keys_upsertAll_of_mem (rows : List (K × V)) :
    ∀ t : List (K × V), (∀ r ∈ rows, r.1 ∈ tableKeys t) →
      tableKeys (upsertAll t rows) = tableKeys t := by
  induction rows with
  | nil => intro t _; rfl
  | cons r rs ih =>
    intro t h
    have hr : r.1 ∈ tableKeys t := h r (by simp)
    have hkeys : tableKeys (upsertRow t r) = tableKeys t :=
      keys_upsertRow_mem t r hr
    calc tableKeys (upsertAll (upsertRow t r) rs)
        = tableKeys (upsertRow t r) := by
          refine ih _ (fun r' hr' => ?_)
          rw [hkeys]
          exact h r' (by simp [hr'])
      _ = tableKeys t := hkeys

theorem mem_keys_upsertAll (rows : List (K × V)) :
    ∀ (t : List (K × V)) (k : K), k ∈ tableKeys t →
      k ∈ tableKeys (upsertAll t rows) := by
  induction rows with
  | nil => intro t k h; exact h
  | cons r rs ih =>
    intro t k h
    exact ih _ _ (mem_keys_upsertRow t r k h)

theorem rows_mem_keys_upsertAll (rows : List (K × V)) :
    ∀ (t : List (K × V)) (r : K × V), r ∈ rows →
      r.1 ∈ tableKeys (upsertAll t rows) := by
  induction rows with
  | nil => intro t r h; cases h
  | cons r0 rs ih =>
    intro t r h
    rcases List.mem_cons.mp h with rfl | h
    · exact mem_keys_upsertAll rs _ _ (self_mem_keys_upsertRow t r)
    · exact ih _ _ h

theorem nodup_keys_upsertAll (rows : List (K × V)) :
    ∀ t : List (K × V), (tableKeys t).Nodup →
      (tableKeys (upsertAll t rows)).Nodup := by
  induction rows with
  | nil => intro t h; exact h
  | cons r rs ih =>
    intro t h
    exact ih _ (nodup_keys_upsertRow t r h)

theorem lookup_upsertAll (rows : List (K × V)) :
    ∀ (t : List (K × V)) (k : K),
      lookupKey (upsertAll t rows) k =
        rows.foldl (lastUpd k) (lookupKey t k) := by
  induction rows with
  | nil => intro t k; rfl
  | cons r rs ih =>
    intro t k
    calc lookupKey (upsertAll (upsertRow t r) rs) k
        = rs.foldl (lastUpd k) (lookupKey (upsertRow t r) k) := ih _ k
      _ = rs.foldl (lastUpd k) (lastUpd k (lookupKey t k) r) := by
          rw [lookup_upsertRow]

theorem lookup_none_of_not_mem (t : List (K × V)) (k : K)
    (h : k ∉ tableKeys t) : lookupKey t k = none := by
  rw [lookupKey, List.find?_eq_none]
  intro e he
  simp only [decide_eq_true_eq]
  exact fun heq => h (heq ▸ List.mem_map_of_mem Prod.fst he)

/-- Tables with the same key column (duplicate-free) and the same stored
row under every key are equal. -/
theorem table_ext : ∀ t t' : List (K × V),
    tableKeys t = tableKeys t' → (tableKeys t).Nodup →
    (∀ k, lookupKey t k = lookupKey t' k) → t = t' := by
  intro t
  induction t with
  | nil =>
    intro t' hkeys _ _
    have : t'.map Prod.fst = [] := by simpa [tableKeys] using hkeys.symm
    exact (List.map_eq_nil_iff.mp this).symm
  | cons e t ih =>
    intro t' hkeys hnd hlook
    cases t' with
    | nil => simp [tableKeys] at hkeys
    | cons e' t' =>
      simp only [tableKeys, List.map_cons, List.cons.injEq] at hkeys
      obtain ⟨hk1, hkrest⟩ := hkeys
      have hL : lookupKey (e :: t) e.1 = some e :=
        lookup_cons_self _ _ _ rfl
      have hR : lookupKey (e' :: t') e.1 = some e' :=
        lookup_cons_self _ _ _ hk1.symm
      have hhead : e = e' :=
        Option.some.inj ((hL.symm.trans (hlook e.1)).trans hR)
      have hnotmem : e.1 ∉ tableKeys t :=
        (List.nodup_cons.mp (by simpa [tableKeys] using hnd)).1
      have hnotmem' : e.1 ∉ tableKeys t' := by
        rw [tableKeys, ← hkrest]
        exact hnotmem
      have htail : t = t' := by
        refine ih t' (by simp [tableKeys, hkrest]) ?_ ?_
        · exact (List.nodup_cons.mp (by simpa [tableKeys] using hnd)).2
        · intro k
          by_cases hke : k = e.1
          · subst hke
            rw [lookup_none_of_not_mem t _ hnotmem,
              lookup_none_of_not_mem t' _ hnotmem']
          · have h1 : lookupKey (e :: t) k = lookupKey t k :=
              lookup_cons_ne _ _ _ (fun h => hke h.symm)
            have h2 : lookupKey (e' :: t') k = lookupKey t' k :=
              lookup_cons_ne _ _ _ (fun h => hke (hk1.trans h).symm)
            exact (h1.symm.trans (hlook k)).trans h2
      rw [hhead, htail]

theorem foldl_lastUpd_of_mem (k : K) :
    ∀ rows : List (K × V), (∃ e ∈ rows, e.1 = k) →
      ∀ i j : Option (K × V),
        rows.foldl (lastUpd k) i = rows.foldl (lastUpd k) j := by
  intro rows
  induction rows with
  | nil => rintro ⟨e, he, -⟩; cases he
  | cons r rs ih =>
    rintro ⟨e, he, hek⟩ i j
    rcases List.mem_cons.mp he with rfl | he
    · simp only [List.foldl_cons]
      rw [show lastUpd k i e = some e by simp [lastUpd, hek],
        show lastUpd k j e = some e by simp [lastUpd, hek]]
    · by_cases hr : r.1 = k
      · simp only [List.foldl_cons]
        rw [show lastUpd k i r = some r by simp [lastUpd, hr],
          show lastUpd k j r = some r by simp [lastUpd, hr]]
      · simp only [List.foldl_cons]
        rw [show lastUpd k i r = i by simp [lastUpd, hr],
          show lastUpd k j r = j by simp [lastUpd, hr]]
        exact ih ⟨e, he, hek⟩ i j

theorem foldl_lastUpd_of_none (k : K) :
    ∀ rows : List (K × V), (∀ e ∈ rows, e.1 ≠ k) →
      ∀ i : Option (K × V), rows.foldl (lastUpd k) i = i := by
  intro rows
  induction rows with
  | nil => intro _ i; rfl
  | cons r rs ih =>
    intro h i
    have hr : r.1 ≠ k := h r (by simp)
    simp only [List.foldl_cons]
    rw [show lastUpd k i r = i by simp [lastUpd, hr]]
    exact ih (fun e he => h e (by simp [he])) i

theorem foldl_lastUpd_idem (k : K) (rows : List (K × V))
    (i : Option (K × V)) :
    rows.foldl (lastUpd k) (rows.foldl (lastUpd k) i) =
      rows.foldl (lastUpd k) i := by
  by_cases hex : ∃ e ∈ rows, e.1 = k
  · exact foldl_lastUpd_of_mem k rows hex _ i
  · push_neg at hex
    rw [foldl_lastUpd_of_none k rows hex, foldl_lastUpd_of_none k rows hex]

/-- **C1 (confirmed).** With a duplicate-free natural-key column (the
PRIMARY KEY invariant), loading the same batch of transformed rows twice
by upsert leaves the fact table exactly as loading it once does — same
rows, hence same row count and identical field values — and the loaded
table's key column stays duplicate-free: the upsert never duplicates a
natural key and no prior delete is needed. Since a survey/year transform
is a pure function of the source data, an unchanged source yields the
same batch, so re-running the transform is the second `upsertAll` here. -/
theorem upsert_load_idempotent (t rows : List (K × V))
    (h : (tableKeys t).Nodup) :
    upsertAll (upsertAll t rows) rows = upsertAll t rows ∧
    (tableKeys (upsertAll t rows)).Nodup := by
  have hnd1 : (tableKeys (upsertAll t rows)).Nodup :=
    nodup_keys_upsertAll rows t h
  refine ⟨?_, hnd1⟩
  have hsub : ∀ r ∈ rows, r.1 ∈ tableKeys (upsertAll t rows) :=
    fun r hr => rows_mem_keys_upsertAll rows t r hr
  refine table_ext _ _ (keys_upsertAll_of_mem rows _ hsub) ?_ ?_
  · exact nodup_keys_upsertAll rows _ hnd1
  · intro k
    rw [lookup_upsertAll, lookup_upsertAll]
    exact foldl_lastUpd_idem k rows (lookupKey t k)

end Upsert

/-- Witness for `upsert_load_idempotent`: the completions-historic batch
⟨(unitid, year, cip2), total⟩ applied twice to an empty table, including
an in-batch conflict on the natural key (100654, 1980, "01"). -/
theorem upsert_load_idempotent_witness :
    upsertAll
      (upsertAll ([] : List ((Nat × Nat × String) × Int))
        [((100654, 1980, "01"), 42), ((100654, 1980, "09"), 7),
         ((100654, 1980, "01"), 45)])
      [((100654, 1980, "01"), 42), ((100654, 1980, "09"), 7),
       ((100654, 1980, "01"), 45)] =
    upsertAll ([] : List ((Nat × Nat × String) × Int))
      [((100654, 1980, "01"), 42), ((100654, 1980, "09"), 7),
       ((100654, 1980, "01"), 45)] :=
  (upsert_load_idempotent _ _ (by decide)).1

/-! ## Audit tracker and per-year orchestration

`TableLogger` (transform_year.py:50-88) is a context manager: `__enter__`
creates the audit entry with status `running` (`etl_log_table_start`);
the body of every `load_*` function ends with `tlog.complete(count)`
(status `completed`, the row count); on an exception `__exit__` rolls
back, closes the entry as `failed` with `str(exc_val)`, and re-raises
(`return False`). `load_file` (load_year.py:100-140) follows the same
start / complete-or-fail protocol with an explicit try/except.

`transform_year` (transform_year.py:541-580) runs the surveys in a fixed
order inside one `try`: the first exception marks the run `failed` with
the exception text and re-raises, so the remaining surveys do not run.
`load_year` (load_year.py:148-223) instead catches each file's exception
inside the loop (`load_file` returns 0 on failure), so the loop
continues and the run completes.

A survey body either finds no source table (skipped, no audit entry),
produces a row count, or raises with a message.
-/

/-- Audit entry status (`etl_table_log.status`). -/
inductive TStatus where
  | running
  | completed
  | failed
  deriving DecidableEq, Repr

/-- One `etl_table_log` row: table name, status, rows affected, error
text. -/
structure AuditEntry where
  table : String
  status : TStatus
  rows : Nat
  error : Option String
  deriving DecidableEq, Repr

/-- `etl_log_table_start`: the entry is created in status `running`. -/
def startEntry (name : String) : AuditEntry :=
  { table := name, status := TStatus.running, rows := 0, error := none }

/-- `etl_log_table_complete(log_id, n, "completed", NULL)` as called by
`TableLogger.complete` / the success path of `load_file`. -/
def completeEntry (e : AuditEntry) (n : Nat) : AuditEntry :=
  { e with status := TStatus.completed, rows := n }

/-- `etl_log_table_complete(log_id, 0, "failed", str(e))` as called by
`TableLogger.__exit__` / the except path of `load_file`. -/
def failEntry (e : AuditEntry) (msg : String) : AuditEntry :=
  { e with status := TStatus.failed, rows := 0, error := some msg }

/-- The `with TableLogger(...) as tlog:` bracket around a table's work:
start the entry; a body that returns `n` has called `tlog.complete(n)`,
a body that raises is closed as `failed` with the exception's message by
`__exit__`. `load_file`'s try/except produces the same entry. -/
def runTable (name : String) (body : Except String Nat) : AuditEntry :=
  match body with
  | Except.ok n => completeEntry (startEntry name) n
  | Except.error msg => failEntry (startEntry name) msg

/-- What one survey's body does for this year: its source table may be
absent (the transform returns 0 and writes no audit entry), or the load
runs and yields a row count, or it raises with a message. -/
inductive SurveyOutcome where
  | missing
  | loads (n : Nat)
  | raises (msg : String)
  deriving DecidableEq, Repr

/-- One survey in `transform_year`'s fixed call sequence. -/
structure Survey where
  name : String
  outcome : SurveyOutcome
  deriving DecidableEq, Repr

/-- The body of `transform_year`'s inner `try`: run the surveys in
order; a raising survey's exception propagates past its `TableLogger`
(which closes that entry as failed), so the remaining surveys never run.
Returns the audit entries written and the propagated error, if any. -/
def processSurveys : List Survey → List AuditEntry × Option String
  | [] => ([], none)
  | s :: rest =>
    match s.outcome with
    | SurveyOutcome.missing => processSurveys rest
    | SurveyOutcome.loads n =>
      let (es, err) := processSurveys rest
      (runTable s.name (Except.ok n) :: es, err)
    | SurveyOutcome.raises msg =>
      ([runTable s.name (Except.error msg)], some msg)

/-- The run-level outcome of `transform_year`: `etl_complete_run` is
called with `"failed"` and the exception text when the inner `try`
raises, else with `"completed"`. -/
structure RunResult where
  status : TStatus
  runError : Option String
  entries : List AuditEntry
  deriving DecidableEq, Repr

/-- `transform_year(year)` (transform_year.py:541-580). -/
def transform_year (surveys : List Survey) : RunResult :=
  match processSurveys surveys with
  | (es, none) =>
    { status := TStatus.completed, runError := none, entries := es }
  | (es, some msg) =>
    { status := TStatus.failed, runError := some msg, entries := es }

/-- The file loop of `load_year` (load_year.py:168-186): a missing zip is
skipped without an entry; `load_file` catches its own exceptions and
closes the entry as failed, so every file is attempted. -/
def loadYearEntries : List Survey → List AuditEntry
  | [] => []
  | s :: rest =>
    match s.outcome with
    | SurveyOutcome.missing => loadYearEntries rest
    | SurveyOutcome.loads n =>
      runTable s.name (Except.ok n) :: loadYearEntries rest
    | SurveyOutcome.raises msg =>
      runTable s.name (Except.error msg) :: loadYearEntries rest

/-- `load_year(year)` (load_year.py:148-223): the run itself is closed
`completed` after the loop (per-file failures never reach the run
handler). -/
def load_year (surveys : List Survey) : RunResult :=
  { status := TStatus.completed, runError := none,
    entries := loadYearEntries surveys }

theorem processSurveys_entries_terminal (surveys : List Survey) :
    ∀ e ∈ (processSurveys surveys).1,
      e.status = TStatus.completed ∨ e.status = TStatus.failed := by
  induction surveys with
  | nil => intro e he; cases he
  | cons s rest ih =>
    intro e he
    cases hs : s.outcome with
    | missing =>
      rw [processSurveys, hs] at he
      exact ih e he
    | loads n =>
      rw [processSurveys, hs] at he
      rcases List.mem_cons.mp he with rfl | he
      · left; rfl
      · exact ih e he
    | raises msg =>
      rw [processSurveys, hs] at he
      rcases List.mem_cons.mp he with rfl | he
      · right; rfl
      · cases he

theorem loadYearEntries_terminal (surveys : List Survey) :
    ∀ e ∈ loadYearEntries surveys,
      e.status = TStatus.completed ∨ e.status = TStatus.failed := by
  induction surveys with
  | nil => intro e he; cases he
  | cons s rest ih =>
    intro e he
    cases hs : s.outcome with
    | missing =>
      rw [loadYearEntries, hs] at he
      exact ih e he
    | loads n =>
      rw [loadYearEntries, hs] at he
      rcases List.mem_cons.mp he with rfl | he
      · left; rfl
      · exact ih e he
    | raises msg =>
      rw [loadYearEntries, hs] at he
      rcases List.mem_cons.mp he with rfl | he
      · right; rfl
      · exact ih e he

/-- **C2 (confirmed).** The audit bracketing is exception-safe: a table
body that raises before explicitly completing still closes its entry as
`failed`, carrying exactly that exception's message; and after either
orchestrator finishes — `transform_year`, whose run may itself end
`failed`, or `load_year` — every table entry written is `completed` or
`failed`, never left `running`. -/
theorem audit_entries_never_running (name msg : String)
    (body : Except String Nat) (surveys : List Survey) (e : AuditEntry) :
    ((runTable name body).status ≠ TStatus.running) ∧
    (runTable name (Except.error msg) =
      { table := name, status := TStatus.failed, rows := 0,
        error := some msg }) ∧
    (e ∈ (transform_year surveys).entries →
      e.status = TStatus.completed ∨ e.status = TStatus.failed) ∧
    (e ∈ (load_year surveys).entries →
      e.status = TStatus.completed ∨ e.status = TStatus.failed) := by
  refine ⟨?_, rfl, ?_, ?_⟩
  · cases body <;> simp [runTable, completeEntry, failEntry, startEntry]
  · intro he
    have : e ∈ (processSurveys surveys).1 := by
      rw [transform_year] at he
      rcases hp : processSurveys surveys with ⟨es, err⟩
      rw [hp] at he
      cases err <;> simpa using he
    exact processSurveys_entries_terminal surveys e this
  · intro he
    exact loadYearEntries_terminal surveys e he

/-- Witness for `audit_entries_never_running`: a run with one loading,
one missing, and one raising survey. -/
theorem audit_entries_never_running_witness :
    ((runTable "institution" (Except.ok 5)).status ≠ TStatus.running) ∧
    ((transform_year
        [{ name := "institution", outcome := SurveyOutcome.loads 5 },
         { name := "admissions", outcome := SurveyOutcome.raises "boom" }]
      ).entries.all
        (fun e => e.status ≠ TStatus.running)) := by
  refine ⟨(audit_entries_never_running "institution" "x"
    (Except.ok 5) [] (startEntry "y")).1, ?_⟩
  rw [List.all_eq_true]
  intro e he
  have := (audit_entries_never_running "institution" "x" (Except.ok 5)
    [{ name := "institution", outcome := SurveyOutcome.loads 5 },
     { name := "admissions", outcome := SurveyOutcome.raises "boom" }]
    e).2.2.1 (by simpa using he)
  simp only [decide_eq_true_eq]
  rcases this with h | h <;> simp [h]

/-- **C3 (counterexample).** The claim says a failure in one survey's
transform does not abort the others and the year still ends with a
complete per-survey summary. But in `transform_year` the surveys run
inside a single `try`: with admissions raising after institutions, the
run is marked `failed` and the enrollment survey is never attempted — its
summary entry does not exist. -/
theorem survey_isolation_counterexample :
    (transform_year
        [{ name := "institution", outcome := SurveyOutcome.loads 5 },
         { name := "admissions", outcome := SurveyOutcome.raises "boom" },
         { name := "enrollment", outcome := SurveyOutcome.loads 3 }]).status
      = TStatus.failed ∧
    (transform_year
        [{ name := "institution", outcome := SurveyOutcome.loads 5 },
         { name := "admissions", outcome := SurveyOutcome.raises "boom" },
         { name := "enrollment", outcome := SurveyOutcome.loads 3 }]).entries
      = [{ table := "institution", status := TStatus.completed, rows := 5,
           error := none },
         { table := "admissions", status := TStatus.failed, rows := 0,
           error := some "boom" }] ∧
    ∀ e ∈ (transform_year
        [{ name := "institution", outcome := SurveyOutcome.loads 5 },
         { name := "admissions", outcome := SurveyOutcome.raises "boom" },
         { name := "enrollment", outcome := SurveyOutcome.loads 3 }]).entries,
      e.table ≠ "enrollment" := by
  refine ⟨rfl, rfl, ?_⟩
  decide

/-- Raising surveys are what abort `processSurveys`. -/
def notRaising (s : Survey) : Bool :=
  match s.outcome with
  | SurveyOutcome.raises _ => false
  | _ => true

theorem processSurveys_append_ok (pre : List Survey)
    (h : pre.all notRaising) (rest : List Survey) :
    processSurveys (pre ++ rest) =
      ((processSurveys pre).1 ++ (processSurveys rest).1,
       (processSurveys rest).2) := by
  induction pre with
  | nil => simp [processSurveys]
  | cons s pre ih =>
    rw [List.all_cons] at h
    obtain ⟨hs, hpre⟩ := Bool.and_eq_true_iff.mp h
    cases ho : s.outcome with
    | missing =>
      simp only [List.cons_append, processSurveys, ho]
      exact ih hpre
    | loads n =>
      simp only [List.cons_append, processSurveys, ho, List.append_eq,
        ih hpre]
    | raises msg =>
      rw [notRaising, ho] at hs
      cases hs
  
theorem loadYearEntries_append (a b : List Survey) :
    loadYearEntries (a ++ b) = loadYearEntries a ++ loadYearEntries b := by
  induction a with
  | nil => simp [loadYearEntries]
  | cons s a ih =>
    cases ho : s.outcome <;>
      simp only [List.cons_append, loadYearEntries, ho, List.append_eq, ih]

/-- **C3 (amended).** A failure in one survey's transform aborts the
transforms of the remaining surveys for that year: `transform_year` runs
the surveys in one `try`, so when the first raising survey follows any
non-raising prefix, the run ends `failed` with that exception's message,
the prefix's audit entries stand, the failing survey's entry is closed
`failed`, and no survey after it runs (no entry for any of them). Only
the raw-file loader `load_year` isolates failures per file: its entry
list over any concatenation is the concatenation of the entry lists, so
later files are loaded regardless of earlier failures. -/
theorem survey_failure_aborts_rest (pre post : List Survey)
    (name msg : String) (h : pre.all notRaising) :
    transform_year
        (pre ++ { name := name, outcome := SurveyOutcome.raises msg } :: post)
      = { status := TStatus.failed, runError := some msg,
          entries := (processSurveys pre).1 ++
            [failEntry (startEntry name) msg] } ∧
    loadYearEntries (pre ++ post) =
      loadYearEntries pre ++ loadYearEntries post := by
  refine ⟨?_, loadYearEntries_append pre post⟩
  have hp := processSurveys_append_ok pre h
    ({ name := name, outcome := SurveyOutcome.raises msg } :: post)
  have hfail : processSurveys
      ({ name := name, outcome := SurveyOutcome.raises msg } :: post) =
      ([failEntry (startEntry name) msg], some msg) := rfl
  rw [hfail] at hp
  rw [transform_year, hp]

/-- Witness for `survey_failure_aborts_rest`: institutions load, then
admissions raises, then enrollment would have loaded. -/
theorem survey_failure_aborts_rest_witness :
    transform_year
        ([{ name := "institution", outcome := SurveyOutcome.loads 5 }] ++
          { name := "admissions", outcome := SurveyOutcome.raises "boom" } ::
            [{ name := "enrollment", outcome := SurveyOutcome.loads 3 }])
      = { status := TStatus.failed, runError := some "boom",
          entries := (processSurveys
              [{ name := "institution", outcome := SurveyOutcome.loads 5 }]).1
            ++ [failEntry (startEntry "admissions") "boom"] } ∧
    loadYearEntries
        ([{ name := "institution", outcome := SurveyOutcome.loads 5 }] ++
          [{ name := "enrollment", outcome := SurveyOutcome.loads 3 }]) =
      loadYearEntries
          [{ name := "institution", outcome := SurveyOutcome.loads 5 }] ++
        loadYearEntries
          [{ name := "enrollment", outcome := SurveyOutcome.loads 3 }] :=
  survey_failure_aborts_rest
    [{ name := "institution", outcome := SurveyOutcome.loads 5 }]
    [{ name := "enrollment", outcome := SurveyOutcome.loads 3 }]
    "admissions" "boom" (by decide)

/-! ## Entity gating (`transform_year.py`, dependent surveys)

`load_institutions` upserts the year's directory table `hd{year}` into
`institution` on `ON CONFLICT (unitid)` — it never deletes, so the
`institution` table accumulates the unitids of every year ever loaded.
Each dependent transform then filters its source on
`WHERE unitid IN (SELECT unitid FROM institution)`
(`load_admissions` transform_year.py:201, `load_completions`
transform_year.py:444, the latter also `AND majornum = 1`). The
institution table is the `upsertAll` association list keyed by unitid;
its non-key columns are abstracted to one `String` field.
-/

/-- One `adm{year}` source row (unitid plus its measures, abstracted). -/
structure AdmRow where
  unitid : Nat
  applicants : Int
  deriving DecidableEq, Repr

/-- One `c_a{year}` source row. -/
structure CompRow where
  unitid : Nat
  majornum : Nat
  cipcode : String
  count : Int
  deriving DecidableEq, Repr

/-- The row set produced by `load_admissions` for the year:
`SELECT ... FROM adm{year} WHERE unitid IN (SELECT unitid FROM
institution)` — a pure filter, rows failing the gate are dropped without
error. -/
def load_admissions_rows (inst : List (Nat × String)) (src : List AdmRow) :
    List AdmRow :=
  src.filter (fun r => decide (r.unitid ∈ tableKeys inst))

/-- The row set produced by `load_completions` for the year:
`WHERE unitid IN (SELECT unitid FROM institution) AND majornum = 1`. -/
def load_completions_rows (inst : List (Nat × String))
    (src : List CompRow) : List CompRow :=
  src.filter (fun r => decide (r.unitid ∈ tableKeys inst) && (r.majornum == 1))

/-- **C5 (counterexample).** The claim says an entity absent from the
directory load for year Y yields no year-Y facts. But the gate is the
cumulative `institution` table: entity 7, loaded in some earlier year and
absent from this year's (empty) directory table, still passes the gate,
so its admissions row for this year is produced. -/
theorem entity_gating_counterexample :
    load_admissions_rows
        (upsertAll [(7, "Old U")] ([] : List (Nat × String)))
        [{ unitid := 7, applicants := 100 }]
      = [{ unitid := 7, applicants := 100 }] ∧
    (7 : Nat) ∉ tableKeys ([] : List (Nat × String)) := by
  constructor
  · rfl
  · decide

theorem mem_keys_upsertAll_cases (rows : List (Nat × String)) :
    ∀ (t : List (Nat × String)) (k : Nat),
      k ∈ tableKeys (upsertAll t rows) →
        k ∈ tableKeys t ∨ k ∈ tableKeys rows := by
  induction rows with
  | nil => intro t k h; exact Or.inl h
  | cons r rs ih =>
    intro t k h
    rcases ih (upsertRow t r) k h with h1 | h1
    · by_cases hm : r.1 ∈ tableKeys t
      · rw [keys_upsertRow_mem t r hm] at h1
        exact Or.inl h1
      · rw [keys_upsertRow_not_mem t r hm] at h1
        rcases List.mem_append.mp h1 with h2 | h2
        · exact Or.inl h2
        · right
          rw [List.mem_singleton.mp h2]
          simp [tableKeys]
    · right
      simp [tableKeys] at h1 ⊢
      exact Or.inr h1

/-- **C5 (amended).** An entity absent from the institution table after
the year's directory load — that is, absent from both the prior
institution table and the year's directory rows — yields no admissions
fact and no completions fact for the year, even when present in those
surveys' raw source tables; the gated-out rows are silently dropped by
the filter (no error: the transforms are total functions of their
inputs). -/
theorem entity_gating_amended (inst0 hd : List (Nat × String))
    (adm : List AdmRow) (comp : List CompRow) (x : Nat)
    (h0 : x ∉ tableKeys inst0) (h1 : x ∉ tableKeys hd) :
    (∀ r ∈ load_admissions_rows (upsertAll inst0 hd) adm, r.unitid ≠ x) ∧
    (∀ r ∈ load_completions_rows (upsertAll inst0 hd) comp,
      r.unitid ≠ x) := by
  have hgate : x ∉ tableKeys (upsertAll inst0 hd) := by
    intro h
    rcases mem_keys_upsertAll_cases hd inst0 x h with h2 | h2
    · exact h0 h2
    · exact h1 h2
  constructor
  · intro r hr heq
    have := List.mem_filter.mp hr
    rw [decide_eq_true_eq] at this
    exact hgate (heq ▸ this.2)
  · intro r hr heq
    have := List.mem_filter.mp hr
    have h2 := (Bool.and_eq_true_iff.mp this.2).1
    rw [decide_eq_true_eq] at h2
    exact hgate (heq ▸ h2)

/-- Witness for `entity_gating_amended`: entity 8 appears in the raw
admissions and completions sources but neither in the prior institution
table nor in the year's directory rows. -/
theorem entity_gating_amended_witness :
    (∀ r ∈ load_admissions_rows (upsertAll [(7, "Old U")] [(9, "New U")])
        [{ unitid := 8, applicants := 100 },
         { unitid := 7, applicants := 50 }],
      r.unitid ≠ 8) ∧
    (∀ r ∈ load_completions_rows (upsertAll [(7, "Old U")] [(9, "New U")])
        [{ unitid := 8, majornum := 1, cipcode := "01.0101", count := 3 }],
      r.unitid ≠ 8) :=
  entity_gating_amended [(7, "Old U")] [(9, "New U")]
    [{ unitid := 8, applicants := 100 }, { unitid := 7, applicants := 50 }]
    [{ unitid := 8, majornum := 1, cipcode := "01.0101", count := 3 }]
    8 (by decide) (by decide)
